import Mathlib

/-!
Verification of the arduino-menusystem navigation core (src/MenuSystem.h).

The repository ships the class declarations in MenuSystem.h; the method
bodies are not part of src/, so every operation below is modelled from the
specification (spec.md sections 3-4 and 7-8), faithful to its words.
Machine `uint8_t` indices are modelled as `Nat` (the spec never relies on
8-bit wraparound), and `float` numeric values are modelled as exact
rationals `Rat` (the spec describes additive increments, comparisons and
clamping only).
-/

/-- Modelled from the spec: the closed component-kind set
\{MenuItem, BackMenuItem, NumericMenuItem, Menu\} of MenuSystem.h, as a
tagged variant (spec section 9, design note on dynamic dispatch).
Each component carries its `_has_focus` flag; a `Menu` additionally carries
`_current_component_num`, `_previous_component_num` and its ordered list of
children (`_menu_components` with `_num_components`). Names, icons and
selection callbacks are opaque to the navigation state machine and omitted. -/
inductive MComponent : Type
  | item (hasFocus : Bool)
  | backItem (hasFocus : Bool)
  | numeric (hasFocus : Bool) (value minValue maxValue increment : Rat)
  | menu (hasFocus : Bool) (currentIdx previousIdx : Nat) (children : List MComponent)

namespace MComponent

/-- MenuComponent::has_focus: read the `_has_focus` flag. -/
def has_focus : MComponent → Bool
  | .item f => f
  | .backItem f => f
  | .numeric f _ _ _ _ => f
  | .menu f _ _ _ => f

/-- MenuComponent::set_focus: set the `_has_focus` flag, leaving all other
state untouched. -/
def set_focus : MComponent → Bool → MComponent
  | .item _, b => .item b
  | .backItem _, b => .backItem b
  | .numeric _ v lo hi inc, b => .numeric b v lo hi inc
  | .menu _ c p cs, b => .menu b c p cs

/-- The `_menu_components` list of a Menu (empty for leaf components). -/
def components : MComponent → List MComponent
  | .menu _ _ _ cs => cs
  | _ => []

/-- Menu::get_current_component_num: the `_current_component_num` cursor
(0 for leaf components). -/
def get_current_component_num : MComponent → Nat
  | .menu _ c _ _ => c
  | _ => 0

/-- Menu::get_num_components. -/
def get_num_components (m : MComponent) : Nat := m.components.length

/-- Modelled from the spec: Menu::get_menu_component with the fail-safe
policy of spec section 7 (out-of-range access returns a null sentinel,
here `none`, rather than an out-of-bounds read). -/
def get_menu_component (m : MComponent) (i : Nat) : Option MComponent :=
  m.components[i]?

/-- Modelled from the spec: Menu::get_current_component, returning null
(`none`) when the menu has no components (spec section 7 fail-safe). -/
def get_current_component (m : MComponent) : Option MComponent :=
  m.components[m.get_current_component_num]?

/-- Discriminates the composite variant. -/
def isMenu : MComponent → Bool
  | .menu _ _ _ _ => true
  | _ => false

/-- NumericMenuItem::get_value (0 for non-numeric components). -/
def get_value : MComponent → Rat
  | .numeric _ v _ _ _ => v
  | _ => 0

/-- NumericMenuItem::get_min_value. -/
def get_min_value : MComponent → Rat
  | .numeric _ _ lo _ _ => lo
  | _ => 0

/-- NumericMenuItem::get_max_value. -/
def get_max_value : MComponent → Rat
  | .numeric _ _ _ hi _ => hi
  | _ => 0

end MComponent

/-- Apply a function to the element at position `i` of a list, leaving the
list unchanged when `i` is out of range (array write `_menu_components[i]`). -/
def modifyList (g : MComponent → MComponent) : List MComponent → Nat → List MComponent
  | [], _ => []
  | c :: cs, 0 => g c :: cs
  | c :: cs, k + 1 => c :: modifyList g cs k

/-- Set the `_has_focus` flag of the child at position `i`. -/
def setFocusAt (cs : List MComponent) (i : Nat) (b : Bool) : List MComponent :=
  modifyList (fun c => c.set_focus b) cs i

/-- Clear every child's `_has_focus` flag (spec section 4.5, reset). -/
def clearFocus (cs : List MComponent) : List MComponent :=
  cs.map (fun c => c.set_focus false)

/-- Clear all focus flags, then focus child 0: the fresh-entry focus state
of a Menu (spec sections 4.5 reset and select/activation). -/
def focusFirst (cs : List MComponent) : List MComponent :=
  setFocusAt (clearFocus cs) 0 true

/-- No child of the list has focus. -/
def noneFocused : List MComponent → Bool
  | [] => true
  | c :: cs => (!c.has_focus) && noneFocused cs

/-- Exactly the child at position `k` has focus (implies `k` is in range). -/
def focusedExactlyAt : List MComponent → Nat → Bool
  | [], _ => false
  | c :: cs, 0 => c.has_focus && noneFocused cs
  | c :: cs, k + 1 => (!c.has_focus) && focusedExactlyAt cs k

/-- Number of children whose `_has_focus` flag is set. -/
def countFocused (cs : List MComponent) : Nat :=
  cs.countP (fun c => c.has_focus)

/-- The focus-uniqueness invariant of spec section 3: a Menu with children
has focus exactly on the child at `_current_component_num`; leaves satisfy
it trivially. -/
def focusOK : MComponent → Bool
  | .menu _ cur _ cs => cs.isEmpty || focusedExactlyAt cs cur
  | _ => true

namespace MComponent

/-- Modelled from the spec: the polymorphic MenuComponent::next(loop).
MenuItem and BackMenuItem: no-op returning false (spec 4.2, 4.3).
NumericMenuItem: value += increment; if the result exceeds max_value, wrap
to min_value when loop else clamp to max_value; returns true iff the value
changed (spec 4.4).
Menu: with zero or one components a no-op returning false (spec 4.5
tie-break); otherwise advance the cursor by one, wrapping past the last
index to 0 only when loop, clearing focus on the old child and setting it
on the new one, updating `_previous_component_num`, and returning true iff
the index actually changed (spec 4.5). -/
def next (loop : Bool) : MComponent → MComponent × Bool
  | .item f => (.item f, false)
  | .backItem f => (.backItem f, false)
  | .numeric f v lo hi inc =>
      let v1 := v + inc
      let v2 := if hi < v1 then (if loop then lo else hi) else v1
      (.numeric f v2 lo hi inc, decide (v2 ≠ v))
  | .menu f cur pv cs =>
      if cs.length ≤ 1 then (.menu f cur pv cs, false)
      else
        let tgt := if cur + 1 < cs.length then cur + 1 else if loop then 0 else cur
        if tgt = cur then (.menu f cur pv cs, false)
        else (.menu f tgt cur (setFocusAt (setFocusAt cs cur false) tgt true), true)

/-- Modelled from the spec: MenuComponent::prev(loop), the mirror image of
`next` (spec 4.4 and 4.5): numeric values move toward min_value, the Menu
cursor moves backward wrapping to the last index only when loop. -/
def prev (loop : Bool) : MComponent → MComponent × Bool
  | .item f => (.item f, false)
  | .backItem f => (.backItem f, false)
  | .numeric f v lo hi inc =>
      let v1 := v - inc
      let v2 := if v1 < lo then (if loop then hi else lo) else v1
      (.numeric f v2 lo hi inc, decide (v2 ≠ v))
  | .menu f cur pv cs =>
      if cs.length ≤ 1 then (.menu f cur pv cs, false)
      else
        let tgt := if 0 < cur then cur - 1 else if loop then cs.length - 1 else cur
        if tgt = cur then (.menu f cur pv cs, false)
        else (.menu f tgt cur (setFocusAt (setFocusAt cs cur false) tgt true), true)

end MComponent

mutual

/-- Modelled from the spec: MenuComponent::reset. Leaves are no-ops
(spec 4.2-4.4); a Menu sets `_current_component_num` back to 0, clears all
children's focus, re-applies focus to child 0, and recursively resets every
child (spec 4.5). -/
def MComponent.reset : MComponent → MComponent
  | .item f => .item f
  | .backItem f => .backItem f
  | .numeric f v lo hi inc => .numeric f v lo hi inc
  | .menu f _ _ cs => .menu f 0 0 (focusFirst (resetChildren cs))

/-- Recursively reset a list of children. -/
def resetChildren : List MComponent → List MComponent
  | [] => []
  | c :: cs => MComponent.reset c :: resetChildren cs

end

mutual

/-- Every Menu node of the tree (this node included) has its cursor at 0. -/
def allCursorsZero : MComponent → Bool
  | .item _ => true
  | .backItem _ => true
  | .numeric _ _ _ _ _ => true
  | .menu _ cur _ cs => (cur == 0) && allCursorsZeroList cs

/-- Every Menu node in a list of subtrees has its cursor at 0. -/
def allCursorsZeroList : List MComponent → Bool
  | [] => true
  | c :: cs => allCursorsZero c && allCursorsZeroList cs

end

mutual

/-- Every Menu node of the tree (this node included) has its cursor at 0
and, when it has children, focus exactly on its child 0: the state reached
by a fresh recursive reset (spec 4.5, cursor to 0 re-focusing child 0). -/
def allFocusFresh : MComponent → Bool
  | .item _ => true
  | .backItem _ => true
  | .numeric _ _ _ _ _ => true
  | .menu _ cur _ cs =>
      (cur == 0) && (cs.isEmpty || focusedExactlyAt cs 0) && allFocusFreshList cs

/-- Every Menu node in a list of subtrees is in the fresh reset state. -/
def allFocusFreshList : List MComponent → Bool
  | [] => true
  | c :: cs => allFocusFresh c && allFocusFreshList cs

end

/-- Modelled from the spec: the discriminated selection outcome of spec
section 9 (design note on the dual-purpose selection return value):
a leaf item stays, a focused sub-Menu causes descent, a BackMenuItem causes
ascent. -/
inductive SelectResult : Type
  | stay
  | descend
  | ascend

/-- Modelled from the spec: how MenuComponent::select of each child kind
steers the MenuSystem (spec 4.2: MenuItem stays; 4.3: BackMenuItem ascends;
4.4: NumericMenuItem stays; 4.5: a child Menu is descended into). The
user callbacks invoked along the way are opaque to the navigation state. -/
def selectClass : MComponent → SelectResult
  | .menu _ _ _ _ => .descend
  | .backItem _ => .ascend
  | _ => .stay

/-- Modelled from the spec: Menu::activate dispatches on the focused child
(spec 4.5 select); with no components there is no child to select, so the
result is the null outcome `stay` (spec section 7 fail-safe). -/
def MComponent.activate : MComponent → SelectResult
  | .menu _ cur _ cs =>
      match cs[cur]? with
      | some c => selectClass c
      | none => .stay
  | _ => .stay

/-- Modelled from the spec: the activation applied to a sub-Menu on
descent: its own internal cursor is set to its first child, the fresh entry
state (spec 4.5 select). -/
def activateMenu : MComponent → MComponent
  | .menu f _ pv cs => .menu f 0 pv (focusFirst cs)
  | m => m

/-- Follow a path of child indices from a component down the tree. -/
def getAt : MComponent → List Nat → Option MComponent
  | m, [] => some m
  | .menu _ _ _ cs, i :: p =>
      match cs[i]? with
      | some c => getAt c p
      | none => none
  | _, _ :: _ => none

/-- Apply a function to the node at a path, leaving the tree unchanged when
the path does not denote a node. -/
def modifyAt (g : MComponent → MComponent) : MComponent → List Nat → MComponent
  | m, [] => g m
  | .menu f c pv cs, i :: p => .menu f c pv (modifyList (fun x => modifyAt g x p) cs i)
  | m, _ :: _ => m

/-- Modelled from the spec: the MenuSystem facade (spec 3.4 and 4.6). It
owns the root Menu and tracks the current Menu; a node in the tree is
identified by its path of child indices from the root, so `path = []` means
the current Menu is the root (`_p_curr_menu == _p_root_menu`) and the
parent of the current Menu exists iff the path is nonempty. The renderer
is an external collaborator and is not part of the navigation state. -/
structure MenuSys : Type where
  root : MComponent
  path : List Nat

namespace MenuSys

/-- The Menu currently receiving input (`_p_curr_menu`). -/
def current (ms : MenuSys) : Option MComponent := getAt ms.root ms.path

/-- Modelled from the spec: MenuSystem::back (spec 4.6): if the current
Menu has a non-null parent, make that parent current and return true; else
return false, the current menu unchanged (already at the root). -/
def back (ms : MenuSys) : MenuSys × Bool :=
  if ms.path.isEmpty then (ms, false)
  else (⟨ms.root, ms.path.dropLast⟩, true)

/-- Modelled from the spec: MenuSystem::select (spec 4.6): ask the current
Menu to select its focused child. A focused sub-Menu becomes the current
Menu, activated at its first child, and when the `reset` argument is true
the new current Menu is additionally reset; a BackMenuItem ascends via
`back`; otherwise (plain or numeric leaf, or nothing to select) the
navigation state is unchanged. -/
def select (rst : Bool) (ms : MenuSys) : MenuSys :=
  match getAt ms.root ms.path with
  | some (.menu _ cur _ cs) =>
      match cs[cur]? with
      | some (.menu _ _ _ _) =>
          let newPath := ms.path ++ [cur]
          let root1 := modifyAt activateMenu ms.root newPath
          let root2 := if rst then modifyAt MComponent.reset root1 newPath else root1
          ⟨root2, newPath⟩
      | some (.backItem _) => (ms.back).1
      | _ => ms
  | _ => ms

/-- Modelled from the spec: MenuSystem::reset (spec 4.6): delegates to the
current Menu's recursive reset. -/
def reset (ms : MenuSys) : MenuSys :=
  ⟨modifyAt MComponent.reset ms.root ms.path, ms.path⟩

end MenuSys

/-- One navigation call on a Menu, for stating properties of arbitrary
call sequences. -/
inductive NavOp : Type
  | doNext (loop : Bool)
  | doPrev (loop : Bool)
  | doReset

/-- Apply one navigation call. -/
def applyOp : NavOp → MComponent → MComponent
  | .doNext l, m => (m.next l).1
  | .doPrev l, m => (m.prev l).1
  | .doReset, m => m.reset

/-- Apply a sequence of navigation calls, first element first. -/
def applyOps (ops : List NavOp) (m : MComponent) : MComponent :=
  ops.foldl (fun a o => applyOp o a) m

/-- Iterate the state part of `next` with a fixed loop flag. -/
def iterNext (loop : Bool) : Nat → MComponent → MComponent
  | 0, m => m
  | k + 1, m => iterNext loop k (m.next loop).1

/-! ### Basic lemmas about focus flags and list surgery -/

theorem has_focus_set_focus (c : MComponent) (b : Bool) :
    (c.set_focus b).has_focus = b := by
  cases c <;> rfl

theorem set_focus_set_focus (c : MComponent) (b1 b2 : Bool) :
    (c.set_focus b1).set_focus b2 = c.set_focus b2 := by
  cases c <;> rfl

theorem set_focus_self (c : MComponent) :
    c.set_focus c.has_focus = c := by
  cases c <;> rfl

theorem components_set_focus (c : MComponent) (b : Bool) :
    (c.set_focus b).components = c.components := by
  cases c <;> rfl

theorem length_modifyList (g : MComponent → MComponent) (cs : List MComponent) (i : Nat) :
    (modifyList g cs i).length = cs.length := by
  induction cs generalizing i with
  | nil => rfl
  | cons c cs ih =>
      cases i with
      | zero => rfl
      | succ k => simpa [modifyList] using ih k

theorem getElem?_modifyList (g : MComponent → MComponent) (cs : List MComponent) (i j : Nat) :
    (modifyList g cs i)[j]? = if j = i then (cs[j]?).map g else cs[j]? := by
  induction cs generalizing i j with
  | nil => simp [modifyList]
  | cons c cs ih =>
      cases i with
      | zero =>
          cases j with
          | zero => simp [modifyList]
          | succ n => simp [modifyList]
      | succ k =>
          cases j with
          | zero => simp [modifyList]
          | succ n => simpa [modifyList] using ih k n

theorem length_setFocusAt (cs : List MComponent) (i : Nat) (b : Bool) :
    (setFocusAt cs i b).length = cs.length := length_modifyList _ cs i

theorem getElem?_setFocusAt (cs : List MComponent) (i : Nat) (b : Bool) (j : Nat) :
    (setFocusAt cs i b)[j]? =
      if j = i then (cs[j]?).map (fun c => c.set_focus b) else cs[j]? :=
  getElem?_modifyList _ cs i j

theorem length_clearFocus (cs : List MComponent) :
    (clearFocus cs).length = cs.length := by
  simp [clearFocus]

theorem length_resetChildren (cs : List MComponent) :
    (resetChildren cs).length = cs.length := by
  induction cs with
  | nil => rfl
  | cons c cs ih => simp [resetChildren, ih]

theorem length_focusFirst (cs : List MComponent) :
    (focusFirst cs).length = cs.length := by
  simp [focusFirst, length_setFocusAt, length_clearFocus]

/-! ### Lemmas about the focus predicates -/

theorem noneFocused_clearFocus (cs : List MComponent) :
    noneFocused (clearFocus cs) = true := by
  induction cs with
  | nil => rfl
  | cons c cs ih =>
      simp only [clearFocus, List.map_cons, noneFocused, has_focus_set_focus,
        Bool.not_false, Bool.true_and]
      simpa [clearFocus] using ih

theorem focusedExactlyAt_lt (cs : List MComponent) (k : Nat)
    (h : focusedExactlyAt cs k = true) : k < cs.length := by
  induction cs generalizing k with
  | nil => simp [focusedExactlyAt] at h
  | cons c cs ih =>
      cases k with
      | zero => simp
      | succ n =>
          simp only [focusedExactlyAt, Bool.and_eq_true] at h
          simpa using ih n h.2

theorem noneFocused_setFocusAt_false (cs : List MComponent) (k : Nat)
    (h : focusedExactlyAt cs k = true) :
    noneFocused (setFocusAt cs k false) = true := by
  induction cs generalizing k with
  | nil => rfl
  | cons c cs ih =>
      cases k with
      | zero =>
          simp only [focusedExactlyAt, Bool.and_eq_true] at h
          simp [setFocusAt, modifyList, noneFocused, has_focus_set_focus, h.2]
      | succ n =>
          simp only [focusedExactlyAt, Bool.and_eq_true] at h
          simp only [setFocusAt, modifyList, noneFocused, Bool.and_eq_true]
          exact ⟨h.1, ih n h.2⟩

theorem focusedExactlyAt_setFocusAt_true (cs : List MComponent) (j : Nat)
    (hn : noneFocused cs = true) (hj : j < cs.length) :
    focusedExactlyAt (setFocusAt cs j true) j = true := by
  induction cs generalizing j with
  | nil => simp at hj
  | cons c cs ih =>
      cases j with
      | zero =>
          simp only [noneFocused, Bool.and_eq_true] at hn
          simp [setFocusAt, modifyList, focusedExactlyAt, has_focus_set_focus, hn.2]
      | succ n =>
          simp only [noneFocused, Bool.and_eq_true] at hn
          simp only [setFocusAt, modifyList, focusedExactlyAt, Bool.and_eq_true]
          refine ⟨by simp [hn.1], ih n hn.2 (by simpa using hj)⟩

theorem countFocused_noneFocused (cs : List MComponent)
    (h : noneFocused cs = true) : countFocused cs = 0 := by
  induction cs with
  | nil => rfl
  | cons c cs ih =>
      simp only [noneFocused, Bool.and_eq_true] at h
      have hc : c.has_focus = false := by simpa using h.1
      simp only [countFocused, List.countP_cons] at ih ⊢
      simp [ih h.2, hc]

theorem countFocused_focusedExactlyAt (cs : List MComponent) (k : Nat)
    (h : focusedExactlyAt cs k = true) : countFocused cs = 1 := by
  induction cs generalizing k with
  | nil => simp [focusedExactlyAt] at h
  | cons c cs ih =>
      cases k with
      | zero =>
          simp only [focusedExactlyAt, Bool.and_eq_true] at h
          have h0 := countFocused_noneFocused cs h.2
          simp only [countFocused, List.countP_cons] at h0 ⊢
          simp [h0, h.1]
      | succ n =>
          simp only [focusedExactlyAt, Bool.and_eq_true] at h
          have hc : c.has_focus = false := by simpa using h.1
          have h1 := ih n h.2
          simp only [countFocused, List.countP_cons] at h1 ⊢
          simp [h1, hc]

theorem focusedExactlyAt_getElem (cs : List MComponent) (k : Nat)
    (h : focusedExactlyAt cs k = true) :
    ∃ c, cs[k]? = some c ∧ c.has_focus = true := by
  induction cs generalizing k with
  | nil => simp [focusedExactlyAt] at h
  | cons c cs ih =>
      cases k with
      | zero =>
          simp only [focusedExactlyAt, Bool.and_eq_true] at h
          exact ⟨c, by simp, h.1⟩
      | succ n =>
          simp only [focusedExactlyAt, Bool.and_eq_true] at h
          simpa using ih n h.2

theorem noneFocused_getElem (cs : List MComponent) (j : Nat) (c : MComponent)
    (h : noneFocused cs = true) (hc : cs[j]? = some c) :
    c.has_focus = false := by
  induction cs generalizing j with
  | nil => simp at hc
  | cons d cs ih =>
      simp only [noneFocused, Bool.and_eq_true] at h
      cases j with
      | zero =>
          simp only [List.getElem?_cons_zero, Option.some.injEq] at hc
          subst hc
          simpa using h.1
      | succ n =>
          simp only [List.getElem?_cons_succ] at hc
          exact ih n h.2 hc

theorem focusedExactlyAt_getElem_ne (cs : List MComponent) (k j : Nat) (c : MComponent)
    (h : focusedExactlyAt cs k = true) (hj : j ≠ k) (hc : cs[j]? = some c) :
    c.has_focus = false := by
  induction cs generalizing k j with
  | nil => simp at hc
  | cons d cs ih =>
      cases k with
      | zero =>
          simp only [focusedExactlyAt, Bool.and_eq_true] at h
          cases j with
          | zero => exact absurd rfl hj
          | succ n =>
              simp only [List.getElem?_cons_succ] at hc
              exact noneFocused_getElem cs n c h.2 hc
      | succ m =>
          simp only [focusedExactlyAt, Bool.and_eq_true] at h
          cases j with
          | zero =>
              simp only [List.getElem?_cons_zero, Option.some.injEq] at hc
              subst hc
              simpa using h.1
          | succ n =>
              simp only [List.getElem?_cons_succ] at hc
              exact ih m n h.2 (by omega) hc

/-! ### The focus move performed by next/prev and its inverse -/

theorem setFocus_roundtrip (cs : List MComponent) (cur tgt : Nat)
    (h : focusedExactlyAt cs cur = true) (hne : tgt ≠ cur) :
    setFocusAt (setFocusAt (setFocusAt (setFocusAt cs cur false) tgt true) tgt false) cur true
      = cs := by
  have hcn : cur ≠ tgt := fun e => hne e.symm
  apply List.ext_getElem?
  intro j
  simp only [getElem?_setFocusAt]
  by_cases hjc : j = cur
  · simp only [hjc, if_pos rfl, if_neg hcn, Option.map_map]
    obtain ⟨c, hc, hf⟩ := focusedExactlyAt_getElem cs cur h
    have h2 : c.set_focus true = c := by
      rw [← hf]
      exact set_focus_self c
    rw [hc]
    simp [Function.comp, set_focus_set_focus, h2]
  · by_cases hjt : j = tgt
    · simp only [hjt, if_pos rfl, if_neg hne, Option.map_map]
      cases hc : cs[tgt]? with
      | none => simp
      | some c =>
          have hf : c.has_focus = false := focusedExactlyAt_getElem_ne cs cur tgt c h hne hc
          have h2 : c.set_focus false = c := by
            rw [← hf]
            exact set_focus_self c
          simp [Function.comp, set_focus_set_focus, h2]
    · simp [if_neg hjc, if_neg hjt]

/-! ### Preservation of the focus-uniqueness invariant -/

theorem focusOK_next (loop : Bool) (m : MComponent) (h : focusOK m = true) :
    focusOK (m.next loop).1 = true := by
  cases m with
  | item f => exact h
  | backItem f => exact h
  | numeric f v lo hi inc => simp [MComponent.next, focusOK]
  | menu f cur pv cs =>
      simp only [MComponent.next]
      by_cases h1 : cs.length ≤ 1
      · simpa [h1] using h
      · simp only [if_neg h1]
        set tgt := if cur + 1 < cs.length then cur + 1 else if loop then 0 else cur with htgt
        by_cases h2 : tgt = cur
        · simpa [h2] using h
        · simp only [if_neg h2]
          have hcs : cs ≠ [] := by
            intro e
            rw [e] at h1
            simp at h1
          have hfoc : focusedExactlyAt cs cur = true := by
            simpa [focusOK, List.isEmpty_iff, hcs] using h
          have htlt : tgt < cs.length := by
            rw [htgt]
            split_ifs with ha hb
            · omega
            · omega
            · exact focusedExactlyAt_lt cs cur hfoc
          simp only [focusOK, Bool.or_eq_true]
          right
          have hn := noneFocused_setFocusAt_false cs cur hfoc
          have := focusedExactlyAt_setFocusAt_true (setFocusAt cs cur false) tgt hn
            (by rw [length_setFocusAt]; exact htlt)
          exact this

theorem focusOK_prev (loop : Bool) (m : MComponent) (h : focusOK m = true) :
    focusOK (m.prev loop).1 = true := by
  cases m with
  | item f => exact h
  | backItem f => exact h
  | numeric f v lo hi inc => simp [MComponent.prev, focusOK]
  | menu f cur pv cs =>
      simp only [MComponent.prev]
      by_cases h1 : cs.length ≤ 1
      · simpa [h1] using h
      · simp only [if_neg h1]
        set tgt := if 0 < cur then cur - 1 else if loop then cs.length - 1 else cur with htgt
        by_cases h2 : tgt = cur
        · simpa [h2] using h
        · simp only [if_neg h2]
          have hcs : cs ≠ [] := by
            intro e
            rw [e] at h1
            simp at h1
          have hfoc : focusedExactlyAt cs cur = true := by
            simpa [focusOK, List.isEmpty_iff, hcs] using h
          have hcur := focusedExactlyAt_lt cs cur hfoc
          have htlt : tgt < cs.length := by
            rw [htgt]
            split_ifs with ha hb
            · omega
            · omega
            · exact hcur
          simp only [focusOK, Bool.or_eq_true]
          right
          have hn := noneFocused_setFocusAt_false cs cur hfoc
          exact focusedExactlyAt_setFocusAt_true (setFocusAt cs cur false) tgt hn
            (by rw [length_setFocusAt]; exact htlt)

theorem focusOK_focusFirst (fb : Bool) (pv : Nat) (cs : List MComponent) :
    focusOK (.menu fb 0 pv (focusFirst cs)) = true := by
  by_cases hcs : cs = []
  · subst hcs
    rfl
  · have hlen : 0 < (clearFocus cs).length := by
      rw [length_clearFocus]
      exact List.length_pos.mpr hcs
    have h1 := focusedExactlyAt_setFocusAt_true (clearFocus cs) 0 (noneFocused_clearFocus cs) hlen
    simp [focusOK, focusFirst, h1]

theorem focusOK_reset (m : MComponent) : focusOK m.reset = true := by
  cases m with
  | item f => rfl
  | backItem f => rfl
  | numeric f v lo hi inc => rfl
  | menu f cur pv cs =>
      simp only [MComponent.reset]
      exact focusOK_focusFirst f 0 (resetChildren cs)

theorem focusOK_applyOp (o : NavOp) (m : MComponent) (h : focusOK m = true) :
    focusOK (applyOp o m) = true := by
  cases o with
  | doNext l => exact focusOK_next l m h
  | doPrev l => exact focusOK_prev l m h
  | doReset => exact focusOK_reset m

theorem focusOK_applyOps (ops : List NavOp) (m : MComponent) (h : focusOK m = true) :
    focusOK (applyOps ops m) = true := by
  induction ops generalizing m with
  | nil => exact h
  | cons o ops ih => exact ih (applyOp o m) (focusOK_applyOp o m h)

theorem focusOK_unique (m : MComponent) (h : focusOK m = true)
    (hne : m.components ≠ []) :
    countFocused m.components = 1 ∧
      ∃ c, m.components[m.get_current_component_num]? = some c ∧ c.has_focus = true := by
  cases m with
  | item f => exact absurd rfl hne
  | backItem f => exact absurd rfl hne
  | numeric f v lo hi inc => exact absurd rfl hne
  | menu f cur pv cs =>
      have hcs : cs ≠ [] := by simpa [MComponent.components] using hne
      have hfoc : focusedExactlyAt cs cur = true := by
        simpa [focusOK, List.isEmpty_iff, hcs] using h
      exact ⟨countFocused_focusedExactlyAt cs cur hfoc,
        focusedExactlyAt_getElem cs cur hfoc⟩

/-! ### Lemmas about tree paths -/

theorem getAt_modifyAt (g : MComponent → MComponent) :
    ∀ (p : List Nat) (m : MComponent),
      getAt (modifyAt g m p) p = (getAt m p).map g := by
  intro p
  induction p with
  | nil => intro m; simp [getAt, modifyAt]
  | cons i p ih =>
      intro m
      cases m with
      | item f => simp [getAt, modifyAt]
      | backItem f => simp [getAt, modifyAt]
      | numeric f v lo hi inc => simp [getAt, modifyAt]
      | menu f c pv cs =>
          simp only [modifyAt, getAt, getElem?_modifyList, if_pos rfl]
          cases e : cs[i]? with
          | none => simp
          | some x => simp [ih x]

theorem modifyAt_append (g : MComponent → MComponent) (q : List Nat) :
    ∀ (p : List Nat) (m : MComponent),
      modifyAt g m (p ++ q) = modifyAt (fun x => modifyAt g x q) m p := by
  intro p
  induction p with
  | nil => intro m; simp [modifyAt]
  | cons i p ih =>
      intro m
      cases m with
      | item f => simp [modifyAt]
      | backItem f => simp [modifyAt]
      | numeric f v lo hi inc => simp [modifyAt]
      | menu f c pv cs =>
          simp only [List.cons_append, modifyAt]
          have he : (fun x => modifyAt g x (p ++ q))
              = (fun x => modifyAt (fun y => modifyAt g y q) x p) := funext (fun x => ih x)
          exact congrArg (fun h => MComponent.menu f c pv (modifyList h cs i)) he

theorem getAt_append :
    ∀ (p q : List Nat) (m : MComponent),
      getAt m (p ++ q) = (getAt m p).bind (fun x => getAt x q) := by
  intro p
  induction p with
  | nil => intro q m; simp [getAt]
  | cons i p ih =>
      intro q m
      cases m with
      | item f => simp [getAt]
      | backItem f => simp [getAt]
      | numeric f v lo hi inc => simp [getAt]
      | menu f c pv cs =>
          simp only [List.cons_append, getAt]
          cases e : cs[i]? with
          | none => simp
          | some x => simp [ih q x]

/-! ### Stepping lemmas for Menu::next -/

theorem iterNext_succ (loop : Bool) (k : Nat) (m : MComponent) :
    iterNext loop (k + 1) m = ((iterNext loop k m).next loop).1 := by
  induction k generalizing m with
  | zero => rfl
  | succ k ih =>
      show iterNext loop (k + 1) (m.next loop).1 = _
      rw [ih (m.next loop).1]
      rfl

theorem next_menu_advance (loop : Bool) (f : Bool) (cur pv : Nat) (cs : List MComponent)
    (hlt : cur + 1 < cs.length) :
    MComponent.next loop (.menu f cur pv cs)
      = (.menu f (cur + 1) cur (setFocusAt (setFocusAt cs cur false) (cur + 1) true), true) := by
  have g1 : ¬ cs.length ≤ 1 := by omega
  have g2 : ¬ (cur + 1 = cur) := by omega
  simp [MComponent.next, g1, hlt, g2]

theorem next_menu_wrap (f : Bool) (cur pv : Nat) (cs : List MComponent)
    (h2 : 2 ≤ cs.length) (hge : ¬ cur + 1 < cs.length) (hc : cur ≠ 0) :
    MComponent.next true (.menu f cur pv cs)
      = (.menu f 0 cur (setFocusAt (setFocusAt cs cur false) 0 true), true) := by
  have g1 : ¬ cs.length ≤ 1 := by omega
  have g2 : ¬ (0 = cur) := fun e => hc e.symm
  simp [MComponent.next, g1, hge, g2]

theorem next_menu_stuck (f : Bool) (cur pv : Nat) (cs : List MComponent)
    (h2 : 2 ≤ cs.length) (hge : ¬ cur + 1 < cs.length) :
    MComponent.next false (.menu f cur pv cs) = (.menu f cur pv cs, false) := by
  have g1 : ¬ cs.length ≤ 1 := by omega
  simp [MComponent.next, g1, hge]

theorem iterNext_menu (loop : Bool) (f : Bool) (pv : Nat) (cs : List MComponent)
    (h2 : 2 ≤ cs.length) :
    ∀ k, k ≤ cs.length - 1 →
      ∃ pv2 cs2, iterNext loop k (.menu f 0 pv cs) = .menu f k pv2 cs2
        ∧ cs2.length = cs.length := by
  intro k
  induction k with
  | zero => exact fun _ => ⟨pv, cs, rfl, rfl⟩
  | succ k ih =>
      intro hk
      obtain ⟨pv2, cs2, he, hl⟩ := ih (by omega)
      rw [iterNext_succ, he, next_menu_advance loop f k pv2 cs2 (by omega)]
      exact ⟨k, _, rfl, by simp [length_setFocusAt, hl]⟩

theorem next_prev_small (loop : Bool) (m : MComponent) (hm : m.isMenu = true)
    (hn : m.get_num_components ≤ 1) :
    m.next loop = (m, false) ∧ m.prev loop = (m, false) := by
  cases m with
  | item f => simp [MComponent.isMenu] at hm
  | backItem f => simp [MComponent.isMenu] at hm
  | numeric f v lo hi inc => simp [MComponent.isMenu] at hm
  | menu f cur pv cs =>
      have h1 : cs.length ≤ 1 := by
        simpa [MComponent.get_num_components, MComponent.components] using hn
      constructor <;> simp [MComponent.next, MComponent.prev, h1]

theorem next_true_iff_moved (loop : Bool) (m : MComponent) (hm : m.isMenu = true) :
    (m.next loop).2 = true ↔
      (m.next loop).1.get_current_component_num ≠ m.get_current_component_num := by
  cases m with
  | item f => simp [MComponent.isMenu] at hm
  | backItem f => simp [MComponent.isMenu] at hm
  | numeric f v lo hi inc => simp [MComponent.isMenu] at hm
  | menu f cur pv cs =>
      simp only [MComponent.next]
      by_cases h1 : cs.length ≤ 1
      · simp [h1]
      · simp only [if_neg h1]
        by_cases h2 : (if cur + 1 < cs.length then cur + 1 else if loop then 0 else cur) = cur
        · simp [h2]
        · simp [h2, MComponent.get_current_component_num]

/-! ### Lemmas about recursive reset -/

theorem allCursorsZero_set_focus (c : MComponent) (b : Bool) :
    allCursorsZero (c.set_focus b) = allCursorsZero c := by
  cases c <;> rfl

theorem allCursorsZeroList_setFocusAt (l : List MComponent) (i : Nat) (b : Bool) :
    allCursorsZeroList (setFocusAt l i b) = allCursorsZeroList l := by
  induction l generalizing i with
  | nil => rfl
  | cons c cs ih =>
      cases i with
      | zero => simp [setFocusAt, modifyList, allCursorsZeroList, allCursorsZero_set_focus]
      | succ k =>
          simp only [setFocusAt, modifyList, allCursorsZeroList] at ih ⊢
          rw [ih k]

theorem allCursorsZeroList_clearFocus (l : List MComponent) :
    allCursorsZeroList (clearFocus l) = allCursorsZeroList l := by
  induction l with
  | nil => rfl
  | cons c cs ih =>
      simp only [clearFocus, List.map_cons, allCursorsZeroList,
        allCursorsZero_set_focus] at ih ⊢
      rw [ih]

mutual

theorem allCursorsZero_reset : ∀ m : MComponent, allCursorsZero m.reset = true
  | .item f => rfl
  | .backItem f => rfl
  | .numeric f v lo hi inc => rfl
  | .menu f cur pv cs => by
      simp only [MComponent.reset, allCursorsZero, focusFirst]
      rw [allCursorsZeroList_setFocusAt, allCursorsZeroList_clearFocus,
        allCursorsZeroList_resetChildren cs]
      rfl

theorem allCursorsZeroList_resetChildren :
    ∀ cs : List MComponent, allCursorsZeroList (resetChildren cs) = true
  | [] => rfl
  | c :: cs => by
      simp only [resetChildren, allCursorsZeroList]
      rw [allCursorsZero_reset c, allCursorsZeroList_resetChildren cs]
      rfl

end

/-! ### Navigation calls preserve the number of components -/

theorem length_components_next (loop : Bool) (m : MComponent) :
    (m.next loop).1.components.length = m.components.length := by
  cases m with
  | item f => rfl
  | backItem f => rfl
  | numeric f v lo hi inc => rfl
  | menu f cur pv cs =>
      simp only [MComponent.next]
      split_ifs <;> simp [MComponent.components, length_setFocusAt]

theorem length_components_prev (loop : Bool) (m : MComponent) :
    (m.prev loop).1.components.length = m.components.length := by
  cases m with
  | item f => rfl
  | backItem f => rfl
  | numeric f v lo hi inc => rfl
  | menu f cur pv cs =>
      simp only [MComponent.prev]
      split_ifs <;> simp [MComponent.components, length_setFocusAt]

theorem length_components_reset (m : MComponent) :
    m.reset.components.length = m.components.length := by
  cases m with
  | item f => rfl
  | backItem f => rfl
  | numeric f v lo hi inc => rfl
  | menu f cur pv cs =>
      simp [MComponent.reset, MComponent.components, length_focusFirst, length_resetChildren]

theorem length_components_applyOps (ops : List NavOp) (m : MComponent) :
    (applyOps ops m).components.length = m.components.length := by
  induction ops generalizing m with
  | nil => rfl
  | cons o ops ih =>
      have h1 : (applyOp o m).components.length = m.components.length := by
        cases o with
        | doNext l => exact length_components_next l m
        | doPrev l => exact length_components_prev l m
        | doReset => exact length_components_reset m
      calc (applyOps ops (applyOp o m)).components.length
          = (applyOp o m).components.length := ih (applyOp o m)
        _ = m.components.length := h1

/-! ### Lemmas about the fresh reset state -/

theorem allFocusFresh_set_focus (c : MComponent) (b : Bool) :
    allFocusFresh (c.set_focus b) = allFocusFresh c := by
  cases c <;> rfl

theorem allFocusFreshList_setFocusAt (l : List MComponent) (i : Nat) (b : Bool) :
    allFocusFreshList (setFocusAt l i b) = allFocusFreshList l := by
  induction l generalizing i with
  | nil => rfl
  | cons c cs ih =>
      cases i with
      | zero => simp [setFocusAt, modifyList, allFocusFreshList, allFocusFresh_set_focus]
      | succ k =>
          simp only [setFocusAt, modifyList, allFocusFreshList] at ih ⊢
          rw [ih k]

theorem allFocusFreshList_clearFocus (l : List MComponent) :
    allFocusFreshList (clearFocus l) = allFocusFreshList l := by
  induction l with
  | nil => rfl
  | cons c cs ih =>
      simp only [clearFocus, List.map_cons, allFocusFreshList,
        allFocusFresh_set_focus] at ih ⊢
      rw [ih]

theorem allFocusFresh_menu_focusFirst (f : Bool) (pv : Nat) (l : List MComponent)
    (h : allFocusFreshList l = true) :
    allFocusFresh (.menu f 0 pv (focusFirst l)) = true := by
  have h3 : allFocusFreshList (focusFirst l) = true := by
    rw [focusFirst, allFocusFreshList_setFocusAt, allFocusFreshList_clearFocus]
    exact h
  have h2 : (focusFirst l).isEmpty || focusedExactlyAt (focusFirst l) 0 = true := by
    by_cases hl : l = []
    · subst hl
      rfl
    · have hlen : 0 < (clearFocus l).length := by
        rw [length_clearFocus]
        exact List.length_pos.mpr hl
      have hf := focusedExactlyAt_setFocusAt_true (clearFocus l) 0
        (noneFocused_clearFocus l) hlen
      simp [focusFirst, hf]
  simp only [allFocusFresh, Bool.and_eq_true]
  exact ⟨⟨rfl, by simpa using h2⟩, h3⟩

mutual

theorem allFocusFresh_reset : ∀ m : MComponent, allFocusFresh m.reset = true
  | .item f => rfl
  | .backItem f => rfl
  | .numeric f v lo hi inc => rfl
  | .menu f cur pv cs => by
      simp only [MComponent.reset]
      exact allFocusFresh_menu_focusFirst f 0 (resetChildren cs)
        (allFocusFreshList_resetChildren cs)

theorem allFocusFreshList_resetChildren :
    ∀ cs : List MComponent, allFocusFreshList (resetChildren cs) = true
  | [] => rfl
  | c :: cs => by
      simp only [resetChildren, allFocusFreshList]
      rw [allFocusFresh_reset c, allFocusFreshList_resetChildren cs]
      rfl

end

/-! ### The claims -/

/-- Claim C1: for every Menu with N ≥ 2 children, starting at index 0 with
loop=false, each of the first N−1 next() calls advances the cursor by one
and returns true, reaching index N−1; the Nth call returns false and the
cursor stays at N−1; in general Menu::next returns true iff
current_component_index actually changed; and with zero or one components
next and prev return false and change nothing. -/
theorem claim_C1_next_exhausts (f : Bool) (pv : Nat) (cs : List MComponent)
    (h2 : 2 ≤ cs.length) :
    (∀ k, k ≤ cs.length - 1 →
      (iterNext false k (.menu f 0 pv cs)).get_current_component_num = k) ∧
    (∀ k, k < cs.length - 1 →
      ((iterNext false k (.menu f 0 pv cs)).next false).2 = true) ∧
    ((iterNext false (cs.length - 1) (.menu f 0 pv cs)).next false).2 = false ∧
    ((iterNext false (cs.length - 1) (.menu f 0 pv cs)).next
        false).1.get_current_component_num = cs.length - 1 ∧
    (∀ (loop : Bool) (m : MComponent), m.isMenu = true → m.get_num_components ≤ 1 →
      m.next loop = (m, false) ∧ m.prev loop = (m, false)) ∧
    (∀ (loop : Bool) (m : MComponent), m.isMenu = true →
      ((m.next loop).2 = true ↔
        (m.next loop).1.get_current_component_num ≠ m.get_current_component_num)) := by
  have hiter := iterNext_menu false f pv cs h2
  refine ⟨?_, ?_, ?_, ?_, next_prev_small, next_true_iff_moved⟩
  · intro k hk
    obtain ⟨pv2, cs2, he, hl⟩ := hiter k hk
    rw [he]
    rfl
  · intro k hk
    obtain ⟨pv2, cs2, he, hl⟩ := hiter k (by omega)
    rw [he, next_menu_advance false f k pv2 cs2 (by omega)]
  · obtain ⟨pv2, cs2, he, hl⟩ := hiter (cs.length - 1) (le_refl _)
    rw [he, next_menu_stuck f (cs.length - 1) pv2 cs2 (by omega) (by omega)]
  · obtain ⟨pv2, cs2, he, hl⟩ := hiter (cs.length - 1) (le_refl _)
    rw [he, next_menu_stuck f (cs.length - 1) pv2 cs2 (by omega) (by omega)]
    rfl

/-- Witness for C1 on a concrete three-child menu. -/
theorem claim_C1_witness :
    2 ≤ ([MComponent.item true, MComponent.item false, MComponent.item false]
      : List MComponent).length ∧
    ((∀ k, k ≤ ([MComponent.item true, MComponent.item false, MComponent.item false]
        : List MComponent).length - 1 →
      (iterNext false k (.menu false 0 0
        [MComponent.item true, MComponent.item false,
          MComponent.item false])).get_current_component_num = k) ∧
    (∀ k, k < ([MComponent.item true, MComponent.item false, MComponent.item false]
        : List MComponent).length - 1 →
      ((iterNext false k (.menu false 0 0
        [MComponent.item true, MComponent.item false,
          MComponent.item false])).next false).2 = true) ∧
    ((iterNext false (([MComponent.item true, MComponent.item false, MComponent.item false]
        : List MComponent).length - 1) (.menu false 0 0
        [MComponent.item true, MComponent.item false,
          MComponent.item false])).next false).2 = false ∧
    ((iterNext false (([MComponent.item true, MComponent.item false, MComponent.item false]
        : List MComponent).length - 1) (.menu false 0 0
        [MComponent.item true, MComponent.item false, MComponent.item false])).next
          false).1.get_current_component_num
      = ([MComponent.item true, MComponent.item false, MComponent.item false]
        : List MComponent).length - 1 ∧
    (∀ (loop : Bool) (m : MComponent), m.isMenu = true → m.get_num_components ≤ 1 →
      m.next loop = (m, false) ∧ m.prev loop = (m, false)) ∧
    (∀ (loop : Bool) (m : MComponent), m.isMenu = true →
      ((m.next loop).2 = true ↔
        (m.next loop).1.get_current_component_num ≠ m.get_current_component_num))) :=
  ⟨by decide, claim_C1_next_exhausts false 0 _ (by decide)⟩

/-- Claim C3: for every Menu with N ≥ 2 children and loop=true, calling
next() N times from index 0 returns the cursor to index 0, and every one
of the N calls returns true. -/
theorem claim_C3_next_loop_cycles (f : Bool) (pv : Nat) (cs : List MComponent)
    (h2 : 2 ≤ cs.length) :
    (∀ k, k < cs.length →
      ((iterNext true k (.menu f 0 pv cs)).next true).2 = true) ∧
    (iterNext true cs.length (.menu f 0 pv cs)).get_current_component_num = 0 := by
  have hiter := iterNext_menu true f pv cs h2
  have hlast : ∀ pv2 cs2, cs2.length = cs.length →
      MComponent.next true (.menu f (cs.length - 1) pv2 cs2)
        = (.menu f 0 (cs.length - 1)
            (setFocusAt (setFocusAt cs2 (cs.length - 1) false) 0 true), true) := by
    intro pv2 cs2 hl
    exact next_menu_wrap f (cs.length - 1) pv2 cs2 (by omega) (by omega) (by omega)
  constructor
  · intro k hk
    by_cases hk2 : k < cs.length - 1
    · obtain ⟨pv2, cs2, he, hl⟩ := hiter k (by omega)
      rw [he, next_menu_advance true f k pv2 cs2 (by omega)]
    · have hke : k = cs.length - 1 := by omega
      obtain ⟨pv2, cs2, he, hl⟩ := hiter k (by omega)
      rw [he, hke, hlast pv2 cs2 hl]
  · have hsucc : cs.length = (cs.length - 1) + 1 := by omega
    obtain ⟨pv2, cs2, he, hl⟩ := hiter (cs.length - 1) (le_refl _)
    rw [hsucc, iterNext_succ, he, hlast pv2 cs2 hl]
    rfl

/-- Witness for C3 on a concrete two-child menu. -/
theorem claim_C3_witness :
    2 ≤ ([MComponent.item true, MComponent.item false] : List MComponent).length ∧
    ((∀ k, k < ([MComponent.item true, MComponent.item false] : List MComponent).length →
      ((iterNext true k (.menu false 0 0
        [MComponent.item true, MComponent.item false])).next true).2 = true) ∧
    (iterNext true ([MComponent.item true, MComponent.item false]
        : List MComponent).length (.menu false 0 0
        [MComponent.item true, MComponent.item false])).get_current_component_num = 0) :=
  ⟨by decide, claim_C3_next_loop_cycles false 0 _ (by decide)⟩

/-- Claim C2: for every Menu satisfying the focus-uniqueness invariant
whose components list is non-empty, after any sequence of next/prev/reset
calls the invariant still holds, exactly one child has has_focus == true,
and that child is components[current_component_index]. -/
theorem claim_C2_focus_uniqueness (m : MComponent) (ops : List NavOp)
    (h : focusOK m = true) (hne : m.components ≠ []) :
    focusOK (applyOps ops m) = true ∧
    countFocused (applyOps ops m).components = 1 ∧
    ∃ c, (applyOps ops m).components[(applyOps ops m).get_current_component_num]?
        = some c ∧ c.has_focus = true := by
  have h1 := focusOK_applyOps ops m h
  have hne2 : (applyOps ops m).components ≠ [] := by
    intro e
    apply hne
    have := length_components_applyOps ops m
    rw [e] at this
    exact List.length_eq_zero.mp this.symm
  obtain ⟨h2, h3⟩ := focusOK_unique _ h1 hne2
  exact ⟨h1, h2, h3⟩

/-- Witness for C2 on a concrete two-child menu and a call sequence
mixing next, prev and reset. -/
theorem claim_C2_witness :
    focusOK (.menu false 0 0 [MComponent.item true, MComponent.item false]) = true ∧
    (MComponent.menu false 0 0
      [MComponent.item true, MComponent.item false]).components ≠ [] ∧
    (focusOK (applyOps [NavOp.doNext false, NavOp.doPrev true, NavOp.doReset,
        NavOp.doNext true]
      (.menu false 0 0 [MComponent.item true, MComponent.item false])) = true ∧
    countFocused (applyOps [NavOp.doNext false, NavOp.doPrev true, NavOp.doReset,
        NavOp.doNext true]
      (.menu false 0 0 [MComponent.item true, MComponent.item false])).components = 1 ∧
    ∃ c, (applyOps [NavOp.doNext false, NavOp.doPrev true, NavOp.doReset,
        NavOp.doNext true]
      (.menu false 0 0 [MComponent.item true,
        MComponent.item false])).components[(applyOps [NavOp.doNext false,
          NavOp.doPrev true, NavOp.doReset, NavOp.doNext true]
      (.menu false 0 0 [MComponent.item true,
        MComponent.item false])).get_current_component_num]? = some c ∧
      c.has_focus = true) :=
  ⟨by decide, by simp [MComponent.components],
    claim_C2_focus_uniqueness _ _ (by decide) (by simp [MComponent.components])⟩

/-- Claim C8: Menu::reset restores the cursor to index 0, re-focusing
child 0 (the focus invariant holds after reset, the child at index 0 has
has_focus = true whenever there are children, and recursively every
descendant Menu is in the same fresh cursor-0/child-0-focused state), and
recursively resets every descendant Menu's cursor to 0; MenuSystem::reset
delegates to the currently active Menu's recursive reset (the current-menu
pointer is unchanged and the node it denotes is the recursive reset of
what it denoted before, every other part of the tree being untouched). -/
theorem claim_C8_reset_recursive :
    (∀ m : MComponent, allCursorsZero m.reset = true) ∧
    (∀ m : MComponent, m.reset.get_current_component_num = 0) ∧
    (∀ m : MComponent, focusOK m.reset = true) ∧
    (∀ (f : Bool) (cur pv : Nat) (cs : List MComponent), cs ≠ [] →
      ∃ c, (MComponent.reset (.menu f cur pv cs)).components[0]? = some c ∧
        c.has_focus = true) ∧
    (∀ m : MComponent, allFocusFresh m.reset = true) ∧
    (∀ ms : MenuSys, (MenuSys.reset ms).path = ms.path ∧
      (MenuSys.reset ms).current = (ms.current).map MComponent.reset) := by
  refine ⟨allCursorsZero_reset, ?_, focusOK_reset, ?_, allFocusFresh_reset, ?_⟩
  · intro m
    cases m <;> simp [MComponent.reset, MComponent.get_current_component_num]
  · intro f cur pv cs hne
    have h1 := focusOK_reset (.menu f cur pv cs)
    have hlen := length_components_reset (.menu f cur pv cs)
    have hne2 : (MComponent.reset (.menu f cur pv cs)).components ≠ [] := by
      intro e
      rw [e] at hlen
      have h0 : (0 : Nat) = cs.length := by
        simpa [MComponent.components] using hlen
      exact hne (List.length_eq_zero.mp h0.symm)
    obtain ⟨hcount, c, hc, hf⟩ := focusOK_unique _ h1 hne2
    have hz : (MComponent.reset (.menu f cur pv cs)).get_current_component_num = 0 := by
      simp [MComponent.reset, MComponent.get_current_component_num]
    rw [hz] at hc
    exact ⟨c, hc, hf⟩
  · intro ms
    exact ⟨rfl, getAt_modifyAt MComponent.reset ms.path ms.root⟩

/-- Witness for C8 on a concrete two-child menu with its cursor at the
second child: after reset the child at index 0 has focus. -/
theorem claim_C8_witness :
    ([MComponent.item false, MComponent.item true] : List MComponent) ≠ [] ∧
    ∃ c, (MComponent.reset (.menu false 1 1
        [MComponent.item false, MComponent.item true])).components[0]? = some c ∧
      c.has_focus = true :=
  ⟨by simp,
    claim_C8_reset_recursive.2.2.2.1 false 1 1
      [MComponent.item false, MComponent.item true] (by simp)⟩

/-- Claim C9: for every Menu and every index at or beyond
get_num_components(), get_menu_component returns the null sentinel rather
than performing an out-of-bounds access. -/
theorem claim_C9_out_of_range_safe (m : MComponent) (i : Nat)
    (h : m.get_num_components ≤ i) :
    m.get_menu_component i = none :=
  List.getElem?_eq_none h

/-- Witness for C9 on a concrete one-child menu and index 5. -/
theorem claim_C9_witness :
    (MComponent.menu false 0 0 [MComponent.item true]).get_num_components ≤ 5 ∧
    (MComponent.menu false 0 0 [MComponent.item true]).get_menu_component 5 = none :=
  ⟨by decide, claim_C9_out_of_range_safe _ 5 (by decide)⟩

/-- Claim C10: for every Menu with zero components, get_current_component
returns null, activate returns the null outcome without accessing any
child, and MenuSystem::select on such a current Menu leaves the navigation
state unchanged. -/
theorem claim_C10_empty_menu_safe (f : Bool) (cur pv : Nat) (rst : Bool)
    (ms : MenuSys) (h : ms.current = some (.menu f cur pv [])) :
    MComponent.get_current_component (.menu f cur pv []) = none ∧
    MComponent.activate (.menu f cur pv []) = SelectResult.stay ∧
    ms.select rst = ms := by
  refine ⟨?_, ?_, ?_⟩
  · simp [MComponent.get_current_component, MComponent.components]
  · simp [MComponent.activate]
  · have h2 : getAt ms.root ms.path = some (.menu f cur pv []) := h
    simp [MenuSys.select, h2]

/-- Witness for C10 on a concrete empty root menu. -/
theorem claim_C10_witness :
    (MenuSys.mk (.menu false 0 0 []) []).current = some (.menu false 0 0 []) ∧
    (MComponent.get_current_component (.menu false 0 0 []) = none ∧
    MComponent.activate (.menu false 0 0 []) = SelectResult.stay ∧
    (MenuSys.mk (.menu false 0 0 []) []).select true = MenuSys.mk (.menu false 0 0 []) []) :=
  ⟨rfl, claim_C10_empty_menu_safe false 0 0 true _ rfl⟩

/-- Claim C6: selecting a BackMenuItem while the current Menu is at depth
≥ 1 makes the parent of the current Menu current (exactly one level up,
the tree untouched); at the root it leaves the navigation state unchanged;
and MenuSystem::back sets the current menu to its parent and returns true
iff the current Menu has a non-null parent, returning false with the
current menu unchanged at the root. -/
theorem claim_C6_back_one_level (ms : MenuSys) (rst : Bool) (f bf : Bool)
    (cur pv : Nat) (cs : List MComponent)
    (hcur : ms.current = some (.menu f cur pv cs))
    (hback : cs[cur]? = some (.backItem bf)) :
    (ms.path ≠ [] →
      (ms.select rst).root = ms.root ∧ (ms.select rst).path = ms.path.dropLast) ∧
    (ms.path = [] → ms.select rst = ms) ∧
    (ms.path ≠ [] → ms.back = (⟨ms.root, ms.path.dropLast⟩, true)) ∧
    (ms.path = [] → ms.back = (ms, false)) := by
  have h2 : getAt ms.root ms.path = some (.menu f cur pv cs) := hcur
  have hsel : ms.select rst = (ms.back).1 := by
    simp [MenuSys.select, h2, hback]
  have hb1 : ms.path ≠ [] → ms.back = (⟨ms.root, ms.path.dropLast⟩, true) := by
    intro hp
    have he : ms.path.isEmpty = false := by
      simpa [List.isEmpty_iff] using hp
    simp [MenuSys.back, he]
  have hb2 : ms.path = [] → ms.back = (ms, false) := by
    intro hp
    simp [MenuSys.back, hp]
  refine ⟨?_, ?_, hb1, hb2⟩
  · intro hp
    rw [hsel, hb1 hp]
    exact ⟨rfl, rfl⟩
  · intro hp
    rw [hsel, hb2 hp]

/-- Witness for C6 on a concrete two-level tree whose current menu holds a
BackMenuItem. -/
theorem claim_C6_witness :
    (MenuSys.mk (.menu false 0 0 [.menu true 0 0 [MComponent.backItem true]])
        [0]).current = some (.menu true 0 0 [MComponent.backItem true]) ∧
    ([MComponent.backItem true] : List MComponent)[0]?
        = some (MComponent.backItem true) ∧
    ((([0] : List Nat) ≠ [] →
      ((MenuSys.mk (.menu false 0 0 [.menu true 0 0 [MComponent.backItem true]])
          [0]).select false).root
        = (MenuSys.mk (.menu false 0 0 [.menu true 0 0 [MComponent.backItem true]])
          [0]).root ∧
      ((MenuSys.mk (.menu false 0 0 [.menu true 0 0 [MComponent.backItem true]])
          [0]).select false).path = ([0] : List Nat).dropLast) ∧
    (([0] : List Nat) = [] →
      (MenuSys.mk (.menu false 0 0 [.menu true 0 0 [MComponent.backItem true]])
          [0]).select false
        = MenuSys.mk (.menu false 0 0 [.menu true 0 0 [MComponent.backItem true]]) [0]) ∧
    (([0] : List Nat) ≠ [] →
      (MenuSys.mk (.menu false 0 0 [.menu true 0 0 [MComponent.backItem true]])
          [0]).back
        = (⟨(MenuSys.mk (.menu false 0 0 [.menu true 0 0 [MComponent.backItem true]])
            [0]).root, ([0] : List Nat).dropLast⟩, true)) ∧
    (([0] : List Nat) = [] →
      (MenuSys.mk (.menu false 0 0 [.menu true 0 0 [MComponent.backItem true]])
          [0]).back
        = (MenuSys.mk (.menu false 0 0 [.menu true 0 0 [MComponent.backItem true]])
            [0], false))) :=
  ⟨rfl, rfl,
    claim_C6_back_one_level
      (MenuSys.mk (.menu false 0 0 [.menu true 0 0 [MComponent.backItem true]]) [0])
      false true true 0 0 [MComponent.backItem true] rfl rfl⟩

/-- Claim C5: when the current Menu's focused child is a sub-Menu,
select() (without reset) makes that sub-Menu current with its own cursor at
its first child, and back() immediately afterwards makes the original
parent current again with the parent's focus index preserved exactly as it
was before the descent. -/
theorem claim_C5_select_descend_back (ms : MenuSys) (f sf : Bool)
    (cur pv sc sp : Nat) (cs scs : List MComponent)
    (hcur : ms.current = some (.menu f cur pv cs))
    (hsub : cs[cur]? = some (.menu sf sc sp scs)) :
    (ms.select false).path = ms.path ++ [cur] ∧
    (ms.select false).current = some (.menu sf 0 sp (focusFirst scs)) ∧
    ((ms.select false).back).2 = true ∧
    ((ms.select false).back).1.path = ms.path ∧
    ((ms.select false).back).1.current
      = some (.menu f cur pv (modifyList activateMenu cs cur)) ∧
    (MComponent.menu f cur pv
      (modifyList activateMenu cs cur)).get_current_component_num = cur := by
  have h2 : getAt ms.root ms.path = some (.menu f cur pv cs) := hcur
  have hsel : ms.select false
      = ⟨modifyAt activateMenu ms.root (ms.path ++ [cur]), ms.path ++ [cur]⟩ := by
    simp [MenuSys.select, h2, hsub]
  have hget : getAt ms.root (ms.path ++ [cur]) = some (.menu sf sc sp scs) := by
    rw [getAt_append, h2]
    simp [getAt, hsub]
  have hc1 : (ms.select false).current = some (.menu sf 0 sp (focusFirst scs)) := by
    rw [hsel]
    show getAt (modifyAt activateMenu ms.root (ms.path ++ [cur])) (ms.path ++ [cur]) = _
    rw [getAt_modifyAt, hget]
    rfl
  have hb : (ms.select false).back = (⟨(ms.select false).root, ms.path⟩, true) := by
    rw [hsel]
    simp [MenuSys.back]
  have hparent : getAt (modifyAt activateMenu ms.root (ms.path ++ [cur])) ms.path
      = some (.menu f cur pv (modifyList activateMenu cs cur)) := by
    rw [modifyAt_append, getAt_modifyAt, h2]
    simp [modifyAt]
  refine ⟨by rw [hsel], hc1, by rw [hb], by rw [hb], ?_, rfl⟩
  rw [hb]
  show getAt (ms.select false).root ms.path = _
  rw [hsel]
  exact hparent

/-- Witness for C5: a root menu focused on its sub-menu child; select
descends to the sub-menu at its first child and back returns to the root
with the root's cursor still at the sub-menu. -/
theorem claim_C5_witness :
    (MenuSys.mk (.menu false 1 0 [MComponent.item false,
        .menu true 0 0 [MComponent.item true, MComponent.backItem false]]) []).current
      = some (.menu false 1 0 [MComponent.item false,
        .menu true 0 0 [MComponent.item true, MComponent.backItem false]]) ∧
    ([MComponent.item false,
        MComponent.menu true 0 0 [MComponent.item true, MComponent.backItem false]]
      : List MComponent)[1]?
      = some (.menu true 0 0 [MComponent.item true, MComponent.backItem false]) ∧
    (((MenuSys.mk (.menu false 1 0 [MComponent.item false,
        .menu true 0 0 [MComponent.item true, MComponent.backItem false]]) []).select
          false).path = ([] : List Nat) ++ [1] ∧
    ((MenuSys.mk (.menu false 1 0 [MComponent.item false,
        .menu true 0 0 [MComponent.item true, MComponent.backItem false]]) []).select
          false).current
      = some (.menu true 0 0
          (focusFirst [MComponent.item true, MComponent.backItem false])) ∧
    ((((MenuSys.mk (.menu false 1 0 [MComponent.item false,
        .menu true 0 0 [MComponent.item true, MComponent.backItem false]]) []).select
          false).back).2 = true) ∧
    ((((MenuSys.mk (.menu false 1 0 [MComponent.item false,
        .menu true 0 0 [MComponent.item true, MComponent.backItem false]]) []).select
          false).back).1.path = ([] : List Nat)) ∧
    ((((MenuSys.mk (.menu false 1 0 [MComponent.item false,
        .menu true 0 0 [MComponent.item true, MComponent.backItem false]]) []).select
          false).back).1.current
      = some (.menu false 1 0 (modifyList activateMenu
          [MComponent.item false,
            .menu true 0 0 [MComponent.item true, MComponent.backItem false]] 1))) ∧
    (MComponent.menu false 1 0 (modifyList activateMenu
        [MComponent.item false,
          .menu true 0 0 [MComponent.item true, MComponent.backItem false]]
        1)).get_current_component_num = 1) :=
  ⟨rfl, rfl,
    claim_C5_select_descend_back
      (MenuSys.mk (.menu false 1 0 [MComponent.item false,
        .menu true 0 0 [MComponent.item true, MComponent.backItem false]]) [])
      false true 1 0 0 0
      [MComponent.item false,
        .menu true 0 0 [MComponent.item true, MComponent.backItem false]]
      [MComponent.item true, MComponent.backItem false] rfl rfl⟩

/-- Claim C7 counterexample: for the NumericMenuItem with value=0, min=0,
max=10 and increment=−1, the invariant min ≤ value ≤ max holds before the
call, yet next(false) drives the value below min_value, so next does not
preserve the invariant for every NumericMenuItem. -/
theorem claim_C7_counterexample :
    (MComponent.numeric true 0 0 10 (-1)).get_min_value
      ≤ (MComponent.numeric true 0 0 10 (-1)).get_value ∧
    (MComponent.numeric true 0 0 10 (-1)).get_value
      ≤ (MComponent.numeric true 0 0 10 (-1)).get_max_value ∧
    ¬ ((MComponent.next false (MComponent.numeric true 0 0 10 (-1))).1.get_min_value
        ≤ (MComponent.next false (MComponent.numeric true 0 0 10 (-1))).1.get_value) := by
  refine ⟨?_, ?_, ?_⟩
  · norm_num [MComponent.get_min_value, MComponent.get_value]
  · norm_num [MComponent.get_max_value, MComponent.get_value]
  · norm_num [MComponent.next, MComponent.get_min_value, MComponent.get_value]

/-- Claim C7 (amended: the increment must be nonnegative, as it is for
every configuration the spec describes; with a negative increment next can
leave [min, max], see the counterexample): next adds the increment, wraps
to min past max when loop else clamps to max, returns true iff the value
changed; prev is the mirror image at min; both preserve
min ≤ value ≤ max; and the concrete 9/10-scenario of the claim holds. -/
theorem claim_C7_numeric_next_prev (loop fb : Bool) (v lo hi inc : Rat)
    (h1 : lo ≤ v) (h2 : v ≤ hi) (h3 : 0 ≤ inc) :
    ((MComponent.next loop (.numeric fb v lo hi inc)).1.get_value
        = if hi < v + inc then (if loop then lo else hi) else v + inc) ∧
    ((MComponent.next loop (.numeric fb v lo hi inc)).2 = true ↔
      (MComponent.next loop (.numeric fb v lo hi inc)).1.get_value ≠ v) ∧
    (lo ≤ (MComponent.next loop (.numeric fb v lo hi inc)).1.get_value ∧
      (MComponent.next loop (.numeric fb v lo hi inc)).1.get_value ≤ hi) ∧
    ((MComponent.prev loop (.numeric fb v lo hi inc)).1.get_value
        = if v - inc < lo then (if loop then hi else lo) else v - inc) ∧
    ((MComponent.prev loop (.numeric fb v lo hi inc)).2 = true ↔
      (MComponent.prev loop (.numeric fb v lo hi inc)).1.get_value ≠ v) ∧
    (lo ≤ (MComponent.prev loop (.numeric fb v lo hi inc)).1.get_value ∧
      (MComponent.prev loop (.numeric fb v lo hi inc)).1.get_value ≤ hi) ∧
    ((MComponent.next false (.numeric fb 9 0 10 1)).1.get_value = 10 ∧
      (MComponent.next false (.numeric fb 9 0 10 1)).2 = true ∧
      (MComponent.next false (.numeric fb 10 0 10 1)).1.get_value = 10 ∧
      (MComponent.next false (.numeric fb 10 0 10 1)).2 = false ∧
      (MComponent.next true (.numeric fb 10 0 10 1)).1.get_value = 0 ∧
      (MComponent.next true (.numeric fb 10 0 10 1)).2 = true) := by
  refine ⟨?_, ?_, ?_, ?_, ?_, ?_, ?_, ?_, ?_, ?_, ?_, ?_⟩
  · simp [MComponent.next, MComponent.get_value]
  · simp [MComponent.next, MComponent.get_value]
  · simp only [MComponent.next, MComponent.get_value]
    split_ifs <;> exact ⟨by linarith, by linarith⟩
  · simp [MComponent.prev, MComponent.get_value]
  · simp [MComponent.prev, MComponent.get_value]
  · simp only [MComponent.prev, MComponent.get_value]
    split_ifs <;> exact ⟨by linarith, by linarith⟩
  · norm_num [MComponent.next, MComponent.get_value]
  · norm_num [MComponent.next, MComponent.get_value]
  · norm_num [MComponent.next, MComponent.get_value]
  · norm_num [MComponent.next, MComponent.get_value]
  · norm_num [MComponent.next, MComponent.get_value]
  · norm_num [MComponent.next, MComponent.get_value]

/-- Witness for the amended C7 on a concrete NumericMenuItem with value 5
in [0, 10] and increment 1. -/
theorem claim_C7_witness :
    ((0 : Rat) ≤ 5 ∧ (5 : Rat) ≤ 10 ∧ (0 : Rat) ≤ 1) ∧
    (((MComponent.next false (.numeric true 5 0 10 1)).1.get_value
        = if (10 : Rat) < 5 + 1 then (if false then (0 : Rat) else 10) else 5 + 1) ∧
    ((MComponent.next false (.numeric true 5 0 10 1)).2 = true ↔
      (MComponent.next false (.numeric true 5 0 10 1)).1.get_value ≠ 5) ∧
    ((0 : Rat) ≤ (MComponent.next false (.numeric true 5 0 10 1)).1.get_value ∧
      (MComponent.next false (.numeric true 5 0 10 1)).1.get_value ≤ 10) ∧
    ((MComponent.prev false (.numeric true 5 0 10 1)).1.get_value
        = if (5 : Rat) - 1 < 0 then (if false then (10 : Rat) else 0) else 5 - 1) ∧
    ((MComponent.prev false (.numeric true 5 0 10 1)).2 = true ↔
      (MComponent.prev false (.numeric true 5 0 10 1)).1.get_value ≠ 5) ∧
    ((0 : Rat) ≤ (MComponent.prev false (.numeric true 5 0 10 1)).1.get_value ∧
      (MComponent.prev false (.numeric true 5 0 10 1)).1.get_value ≤ 10) ∧
    ((MComponent.next false (.numeric true 9 0 10 1)).1.get_value = 10 ∧
      (MComponent.next false (.numeric true 9 0 10 1)).2 = true ∧
      (MComponent.next false (.numeric true 10 0 10 1)).1.get_value = 10 ∧
      (MComponent.next false (.numeric true 10 0 10 1)).2 = false ∧
      (MComponent.next true (.numeric true 10 0 10 1)).1.get_value = 0 ∧
      (MComponent.next true (.numeric true 10 0 10 1)).2 = true)) :=
  ⟨⟨by norm_num, by norm_num, by norm_num⟩,
    claim_C7_numeric_next_prev false true 5 0 10 1
      (by norm_num) (by norm_num) (by norm_num)⟩

/-! ### Stepping lemmas for Menu::prev and move characterizations -/

theorem prev_menu_back (loop : Bool) (f : Bool) (cur pv : Nat) (cs : List MComponent)
    (h2 : 2 ≤ cs.length) (hpos : 0 < cur) :
    MComponent.prev loop (.menu f cur pv cs)
      = (.menu f (cur - 1) cur (setFocusAt (setFocusAt cs cur false) (cur - 1) true),
          true) := by
  have g1 : ¬ cs.length ≤ 1 := by omega
  have g2 : ¬ (cur - 1 = cur) := by omega
  simp [MComponent.prev, g1, hpos, g2]

theorem prev_menu_wrap (f : Bool) (pv : Nat) (cs : List MComponent)
    (h2 : 2 ≤ cs.length) :
    MComponent.prev true (.menu f 0 pv cs)
      = (.menu f (cs.length - 1) 0 (setFocusAt (setFocusAt cs 0 false) (cs.length - 1)
          true), true) := by
  have g1 : ¬ cs.length ≤ 1 := by omega
  have g2 : ¬ (cs.length - 1 = 0) := by omega
  simp [MComponent.prev, g1, g2]

theorem next_moves (loop : Bool) (f : Bool) (cur pv : Nat) (cs : List MComponent)
    (h : (MComponent.next loop (.menu f cur pv cs)).2 = true) :
    2 ≤ cs.length ∧ ∃ tgt, tgt ≠ cur ∧
      ((tgt = cur + 1 ∧ cur + 1 < cs.length) ∨
        (tgt = 0 ∧ loop = true ∧ ¬ cur + 1 < cs.length)) ∧
      MComponent.next loop (.menu f cur pv cs)
        = (.menu f tgt cur (setFocusAt (setFocusAt cs cur false) tgt true), true) := by
  by_cases h1 : cs.length ≤ 1
  · simp [MComponent.next, h1] at h
  · by_cases hlt : cur + 1 < cs.length
    · exact ⟨by omega, cur + 1, by omega, Or.inl ⟨rfl, hlt⟩,
        next_menu_advance loop f cur pv cs hlt⟩
    · cases loop with
      | false => simp [MComponent.next, h1, hlt] at h
      | true =>
          by_cases hc : cur = 0
          · subst hc
            simp [MComponent.next, h1, hlt] at h
          · exact ⟨by omega, 0, fun e => hc e.symm, Or.inr ⟨rfl, rfl, hlt⟩,
              next_menu_wrap f cur pv cs (by omega) hlt hc⟩

theorem prev_moves (loop : Bool) (f : Bool) (cur pv : Nat) (cs : List MComponent)
    (h : (MComponent.prev loop (.menu f cur pv cs)).2 = true) :
    2 ≤ cs.length ∧ ∃ tgt, tgt ≠ cur ∧
      ((tgt = cur - 1 ∧ 0 < cur) ∨
        (tgt = cs.length - 1 ∧ loop = true ∧ cur = 0)) ∧
      MComponent.prev loop (.menu f cur pv cs)
        = (.menu f tgt cur (setFocusAt (setFocusAt cs cur false) tgt true), true) := by
  by_cases h1 : cs.length ≤ 1
  · simp [MComponent.prev, h1] at h
  · by_cases hpos : 0 < cur
    · exact ⟨by omega, cur - 1, by omega, Or.inl ⟨rfl, hpos⟩,
        prev_menu_back loop f cur pv cs (by omega) hpos⟩
    · have hc : cur = 0 := by omega
      subst hc
      cases loop with
      | false => simp [MComponent.prev, h1] at h
      | true =>
          exact ⟨by omega, cs.length - 1, by omega, Or.inr ⟨rfl, rfl, rfl⟩,
            prev_menu_wrap f pv cs (by omega)⟩

/-- Claim C4 counterexample: for the two-child Menu with cursor at the
last index (which satisfies the focus invariant) and loop=false, next()
does not move (returns false) but the following prev() does, so
next-then-prev does not restore the original current_component_index for
every Menu, every starting index and either loop flag. -/
theorem claim_C4_counterexample :
    focusOK (.menu false 1 0 [MComponent.item false, MComponent.item true]) = true ∧
    (MComponent.prev false
        (MComponent.next false (.menu false 1 0
          [MComponent.item false, MComponent.item true])).1).1.get_current_component_num
      ≠ (MComponent.menu false 1 0
          [MComponent.item false, MComponent.item true]).get_current_component_num := by
  exact ⟨by decide, by decide⟩

/-- Claim C4 (amended: restricted to the calls that actually move, i.e.
that return true — when the first call reports no movement the state is
unchanged and the second call can move, see the counterexample): on a Menu
satisfying the focus invariant, whenever next returns true the following
prev (same loop flag) restores the original current_component_index and
the original children (hence the focus state of every child), and
symmetrically whenever prev returns true the following next restores
them. -/
theorem claim_C4_prev_inverse_of_next (loop : Bool) (f : Bool) (cur pv : Nat)
    (cs : List MComponent)
    (hfoc : focusOK (.menu f cur pv cs) = true) :
    ((MComponent.next loop (.menu f cur pv cs)).2 = true →
      (MComponent.prev loop
          (MComponent.next loop (.menu f cur pv cs)).1).1.get_current_component_num
        = cur ∧
      (MComponent.prev loop
          (MComponent.next loop (.menu f cur pv cs)).1).1.components = cs) ∧
    ((MComponent.prev loop (.menu f cur pv cs)).2 = true →
      (MComponent.next loop
          (MComponent.prev loop (.menu f cur pv cs)).1).1.get_current_component_num
        = cur ∧
      (MComponent.next loop
          (MComponent.prev loop (.menu f cur pv cs)).1).1.components = cs) := by
  constructor
  · intro hm
    obtain ⟨hlen, tgt, hne, hcase, hnext⟩ := next_moves loop f cur pv cs hm
    have hcs : cs ≠ [] := by
      intro e
      rw [e] at hlen
      simp at hlen
    have hfoc2 : focusedExactlyAt cs cur = true := by
      simpa [focusOK, List.isEmpty_iff, hcs] using hfoc
    have hcur_lt : cur < cs.length := focusedExactlyAt_lt cs cur hfoc2
    set cs2 := setFocusAt (setFocusAt cs cur false) tgt true with hcs2
    have hl2 : cs2.length = cs.length := by
      rw [hcs2, length_setFocusAt, length_setFocusAt]
    have hres : (MComponent.next loop (.menu f cur pv cs)).1 = .menu f tgt cur cs2 := by
      rw [hnext]
    rw [hres]
    rcases hcase with ⟨ht, hlt⟩ | ⟨ht0, hloop, hge⟩
    · subst ht
      rw [prev_menu_back loop f (cur + 1) cur cs2 (by omega) (by omega)]
      have he1 : cur + 1 - 1 = cur := by omega
      refine ⟨by simp [MComponent.get_current_component_num, he1], ?_⟩
      show setFocusAt (setFocusAt cs2 (cur + 1) false) (cur + 1 - 1) true = cs
      rw [he1, hcs2]
      exact setFocus_roundtrip cs cur (cur + 1) hfoc2 (by omega)
    · subst ht0
      subst hloop
      rw [prev_menu_wrap f cur cs2 (by omega)]
      have he1 : cs2.length - 1 = cur := by omega
      refine ⟨by simp [MComponent.get_current_component_num, he1], ?_⟩
      show setFocusAt (setFocusAt cs2 0 false) (cs2.length - 1) true = cs
      rw [he1, hcs2]
      exact setFocus_roundtrip cs cur 0 hfoc2 hne
  · intro hm
    obtain ⟨hlen, tgt, hne, hcase, hprev⟩ := prev_moves loop f cur pv cs hm
    have hcs : cs ≠ [] := by
      intro e
      rw [e] at hlen
      simp at hlen
    have hfoc2 : focusedExactlyAt cs cur = true := by
      simpa [focusOK, List.isEmpty_iff, hcs] using hfoc
    have hcur_lt : cur < cs.length := focusedExactlyAt_lt cs cur hfoc2
    set cs2 := setFocusAt (setFocusAt cs cur false) tgt true with hcs2
    have hl2 : cs2.length = cs.length := by
      rw [hcs2, length_setFocusAt, length_setFocusAt]
    have hres : (MComponent.prev loop (.menu f cur pv cs)).1 = .menu f tgt cur cs2 := by
      rw [hprev]
    rw [hres]
    rcases hcase with ⟨ht, hpos⟩ | ⟨ht0, hloop, hc0⟩
    · subst ht
      rw [next_menu_advance loop f (cur - 1) cur cs2 (by omega)]
      have he1 : cur - 1 + 1 = cur := by omega
      refine ⟨by simp [MComponent.get_current_component_num, he1], ?_⟩
      show setFocusAt (setFocusAt cs2 (cur - 1) false) (cur - 1 + 1) true = cs
      rw [he1, hcs2]
      exact setFocus_roundtrip cs cur (cur - 1) hfoc2 (by omega)
    · subst hc0
      subst hloop
      subst ht0
      rw [next_menu_wrap f (cs.length - 1) 0 cs2 (by omega) (by omega) (by omega)]
      refine ⟨by simp [MComponent.get_current_component_num], ?_⟩
      show setFocusAt (setFocusAt cs2 (cs.length - 1) false) 0 true = cs
      rw [hcs2]
      exact setFocus_roundtrip cs 0 (cs.length - 1) hfoc2 hne

/-- Witness for the amended C4 on a concrete two-child menu with loop
enabled. -/
theorem claim_C4_witness :
    focusOK (.menu false 0 0 [MComponent.item true, MComponent.item false]) = true ∧
    (((MComponent.next true (.menu false 0 0
        [MComponent.item true, MComponent.item false])).2 = true →
      (MComponent.prev true
          (MComponent.next true (.menu false 0 0
            [MComponent.item true,
              MComponent.item false])).1).1.get_current_component_num = 0 ∧
      (MComponent.prev true
          (MComponent.next true (.menu false 0 0
            [MComponent.item true, MComponent.item false])).1).1.components
        = [MComponent.item true, MComponent.item false]) ∧
    ((MComponent.prev true (.menu false 0 0
        [MComponent.item true, MComponent.item false])).2 = true →
      (MComponent.next true
          (MComponent.prev true (.menu false 0 0
            [MComponent.item true,
              MComponent.item false])).1).1.get_current_component_num = 0 ∧
      (MComponent.next true
          (MComponent.prev true (.menu false 0 0
            [MComponent.item true, MComponent.item false])).1).1.components
        = [MComponent.item true, MComponent.item false])) :=
  ⟨by decide, claim_C4_prev_inverse_of_next true false 0 0
    [MComponent.item true, MComponent.item false] (by decide)⟩
